import Mathlib

/-!
Verification of the fold-orchestration and inference code of `runtime/run.py`
(class `RunTime`) in the MISTrg repository. The training loop, the fold
scheduler, the checkpoint logic, the loss accumulators, the sliding-window
patch-origin generation, the grayscale conversion and the temporary-file
cleanup of `predict_and_evaluate_val` are shallowly embedded below; parts of
the repository that are referenced by `run.py` but whose source is not
available (`runtime/checkpoints.py`, `runtime/progress_bar.py`,
`inference/sliding_window.py`, `runtime/utils.py`) are modelled from the
specification and marked as such in their doc comments.
-/

namespace MISTrg

/-- Observable events emitted by `RunTime.train` (run.py lines 175-368):
each `train_step`/`val_step` call, each `checkpoint.update`, each
`logs.update(current_epoch)`, and the four end-of-fold / end-of-run actions
`k_metrics.on_epoch_end`, `checkpoint.save_last_model`,
`predict_and_evaluate_val`, `k_metrics.on_kFold_end`, plus the final
`k_metrics.on_training_end`. -/
inductive Event where
  | trainStep
  | valStep
  | checkpointUpdate
  | logUpdate (epoch : Nat)
  | epochEndHook
  | saveLastModel
  | predictEvaluate
  | kFoldEndHook
  | trainingEndHook
  deriving DecidableEq, Repr

/-- State of one fold's training loop (run.py lines 282-320): the list of
events emitted so far, `current_epoch` and `local_step`. -/
structure LoopState where
  events : List Event
  currentEpoch : Nat
  localStep : Nat
  deriving DecidableEq, Repr

/-- One iteration of the `for global_step, (image, mask) in enumerate(train_loader)`
body after the `global_step >= total_steps` break check (run.py lines 285-320):
run `train_step`, and if `(global_step + 1) % steps_per_epoch == 0 and global_step > 0`
run `val_step` over the `nVal` validation items, then `checkpoint.update`,
`logs.update(current_epoch)`, increment `current_epoch` and reset `local_step`. -/
def loopBody (S nVal : Nat) (st : LoopState) (g : Nat) : LoopState :=
  let st1 : LoopState :=
    { st with events := st.events ++ [Event.trainStep], localStep := st.localStep + 1 }
  if (g + 1) % S = 0 ∧ 0 < g then
    { st1 with
        events := st1.events ++ (List.replicate nVal Event.valStep ++
          [Event.checkpointUpdate, Event.logUpdate st1.currentEpoch]),
        currentEpoch := st1.currentEpoch + 1,
        localStep := 1 }
  else st1

/-- The training loop of one fold (run.py lines 282-320): `total_steps =
epochs * steps_per_epoch`; the data iterator is cycling (effectively
infinite), so the `break` at `global_step >= total_steps` makes the loop
process the body exactly for `global_step = 0 .. total_steps - 1`.
`current_epoch` and `local_step` start at 1. -/
def runLoop (E S nVal : Nat) : LoopState :=
  (List.range (E * S)).foldl (loopBody S nVal) ⟨[], 1, 1⟩

/-- The events appended by one loop iteration. -/
def bodyEmits (S nVal : Nat) (epoch : Nat) (g : Nat) : List Event :=
  [Event.trainStep] ++
    (if (g + 1) % S = 0 ∧ 0 < g then
      List.replicate nVal Event.valStep ++
        [Event.checkpointUpdate, Event.logUpdate epoch]
     else [])

theorem loopBody_events (S nVal : Nat) (st : LoopState) (g : Nat) :
    (loopBody S nVal st g).events = st.events ++ bodyEmits S nVal st.currentEpoch g := by
  unfold loopBody bodyEmits
  by_cases h : (g + 1) % S = 0 ∧ 0 < g
  · simp [h]
  · simp [h]

theorem count_bodyEmits_trainStep (S nVal epoch g : Nat) :
    (bodyEmits S nVal epoch g).count Event.trainStep = 1 := by
  unfold bodyEmits
  by_cases h : (g + 1) % S = 0 ∧ 0 < g
  · simp [h, List.count_append, List.count_replicate, List.count_cons]
  · simp [h]

theorem count_bodyEmits_checkpointUpdate (S nVal epoch g : Nat) :
    (bodyEmits S nVal epoch g).count Event.checkpointUpdate =
      (if (g + 1) % S = 0 ∧ 0 < g then 1 else 0) := by
  unfold bodyEmits
  by_cases h : (g + 1) % S = 0 ∧ 0 < g
  · simp [h, List.count_append, List.count_replicate, List.count_cons]
  · simp [h]

theorem count_bodyEmits_valStep (S nVal epoch g : Nat) :
    (bodyEmits S nVal epoch g).count Event.valStep =
      (if (g + 1) % S = 0 ∧ 0 < g then nVal else 0) := by
  unfold bodyEmits
  by_cases h : (g + 1) % S = 0 ∧ 0 < g
  · simp [h, List.count_append, List.count_replicate, List.count_cons]
  · simp [h]

theorem foldl_count_trainStep (S nVal : Nat) :
    ∀ (l : List Nat) (st : LoopState),
      ((l.foldl (loopBody S nVal) st).events.count Event.trainStep) =
        st.events.count Event.trainStep + l.length := by
  intro l
  induction l with
  | nil => intro st; rfl
  | cons g l ih =>
      intro st
      have h := ih (loopBody S nVal st g)
      rw [List.foldl_cons, h, loopBody_events, List.count_append,
        count_bodyEmits_trainStep]
      simp only [List.length_cons]
      omega

theorem foldl_count_checkpointUpdate (S nVal : Nat) :
    ∀ (l : List Nat) (st : LoopState),
      ((l.foldl (loopBody S nVal) st).events.count Event.checkpointUpdate) =
        st.events.count Event.checkpointUpdate +
          l.countP (fun g => decide ((g + 1) % S = 0 ∧ 0 < g)) := by
  intro l
  induction l with
  | nil => intro st; rfl
  | cons g l ih =>
      intro st
      have h := ih (loopBody S nVal st g)
      rw [List.foldl_cons, h, loopBody_events, List.count_append,
        count_bodyEmits_checkpointUpdate, List.countP_cons]
      by_cases hb : (g + 1) % S = 0 ∧ 0 < g
      · simp [hb]; omega
      · simp [hb]

theorem foldl_count_valStep (S nVal : Nat) :
    ∀ (l : List Nat) (st : LoopState),
      ((l.foldl (loopBody S nVal) st).events.count Event.valStep) =
        st.events.count Event.valStep +
          nVal * l.countP (fun g => decide ((g + 1) % S = 0 ∧ 0 < g)) := by
  intro l
  induction l with
  | nil => intro st; simp
  | cons g l ih =>
      intro st
      have h := ih (loopBody S nVal st g)
      rw [List.foldl_cons, h, loopBody_events, List.count_append,
        count_bodyEmits_valStep, List.countP_cons]
      by_cases hb : (g + 1) % S = 0 ∧ 0 < g
      · simp [hb]; ring
      · simp [hb]

/-- Number of epoch boundaries hit in `[0, n)` when `steps_per_epoch = S ≥ 2`:
the guard `(g+1) % S = 0 ∧ 0 < g` fires exactly at multiples of `S`. -/
theorem countP_boundary_of_two_le (S : Nat) (hS : 2 ≤ S) (n : Nat) :
    (List.range n).countP (fun g => decide ((g + 1) % S = 0 ∧ 0 < g)) = n / S := by
  induction n with
  | zero => simp
  | succ n ih =>
      rw [List.range_succ, List.countP_append, ih]
      have hdiv : (n + 1) / S = n / S + if S ∣ (n + 1) then 1 else 0 := Nat.succ_div n S
      by_cases hb : (n + 1) % S = 0 ∧ 0 < n
      · have hd : S ∣ (n + 1) := Nat.dvd_of_mod_eq_zero hb.1
        simp only [List.countP_cons, List.countP_nil]
        rw [hdiv]
        simp [hb, hd]
      · have hnd : ¬ S ∣ (n + 1) := by
          intro hd
          obtain ⟨c, hc⟩ := hd
          have hm : (n + 1) % S = 0 := by rw [hc]; exact Nat.mul_mod_right S c
          rcases Nat.eq_zero_or_pos n with h0 | h0
          · have hle : S ≤ n + 1 := Nat.le_of_dvd (by omega) ⟨c, hc⟩
            omega
          · exact hb ⟨hm, h0⟩
        simp only [List.countP_cons, List.countP_nil]
        rw [hdiv]
        simp [hb, hnd]

/-- Number of epoch boundaries hit in `[0, n)` when `steps_per_epoch = 1`:
the guard reduces to `0 < g`, so the first boundary (at `g = 0`) is missed. -/
theorem countP_boundary_of_one (n : Nat) :
    (List.range n).countP (fun g => decide ((g + 1) % 1 = 0 ∧ 0 < g)) = n - 1 := by
  induction n with
  | zero => simp
  | succ n ih =>
      rw [List.range_succ, List.countP_append, ih]
      simp only [List.countP_cons, List.countP_nil]
      by_cases hb : 0 < n
      · simp [Nat.mod_one, hb]
        omega
      · simp [Nat.mod_one, hb]
        omega

theorem runLoop_init_count (e : Event) : (([] : List Event).count e) = 0 := rfl

/-- C1 (amended). For every fold with configured `epochs = E` and
`steps_per_epoch = S`, the loop of run.py lines 282-320 executes exactly
`E * S` `train_step` calls and never runs a `train_step` past the budget;
when `S ≥ 2` it runs exactly `E` validation rounds, but when `S = 1` the
guard `global_step > 0` suppresses the first epoch boundary and only `E - 1`
validation rounds run; each validation round runs `val_step` once per
held-out validation item. -/
theorem c1_step_budget (E S nVal : Nat) :
    (runLoop E S nVal).events.count Event.trainStep = E * S ∧
    (2 ≤ S → (runLoop E S nVal).events.count Event.checkpointUpdate = E) ∧
    (S = 1 → (runLoop E S nVal).events.count Event.checkpointUpdate = E - 1) ∧
    (runLoop E S nVal).events.count Event.valStep =
      nVal * (runLoop E S nVal).events.count Event.checkpointUpdate := by
  refine ⟨?_, ?_, ?_, ?_⟩
  · unfold runLoop
    rw [foldl_count_trainStep]
    simp
  · intro hS
    unfold runLoop
    rw [foldl_count_checkpointUpdate, countP_boundary_of_two_le S hS]
    have hS0 : 0 < S := by omega
    simp [Nat.mul_div_cancel E hS0]
  · intro hS
    subst hS
    unfold runLoop
    rw [foldl_count_checkpointUpdate, countP_boundary_of_one]
    simp
  · unfold runLoop
    rw [foldl_count_valStep, foldl_count_checkpointUpdate]
    simp

/-- C1 counterexample: with `epochs = 2, steps_per_epoch = 1` the full step
budget of 2 `train_step` calls runs, but only 1 validation round occurs
instead of the claimed 2 — the boundary at `global_step = 0` is skipped by
the `global_step > 0` guard. -/
theorem c1_counterexample :
    (runLoop 2 1 1).events.count Event.trainStep = 2 * 1 ∧
    (runLoop 2 1 1).events.count Event.checkpointUpdate ≠ 2 := by decide

/-- Witness for `c1_step_budget` at the spec's own example
`epochs = 3, steps_per_epoch = 10` with 2 validation items. -/
theorem c1_step_budget_witness :
    2 ≤ 10 ∧
    (runLoop 3 10 2).events.count Event.trainStep = 3 * 10 ∧
    (runLoop 3 10 2).events.count Event.checkpointUpdate = 3 := by
  have h := c1_step_budget 3 10 2
  exact ⟨by decide, h.1, h.2.1 (by decide)⟩

/-! ### Fold scheduling (run.py `RunTime.train`, lines 175-368) -/

/-- The `steps_per_epoch` value actually used by each successive fold
(run.py lines 203-206): if `self.args.steps_per_epoch` is `None` it is
assigned `len(train_images) // self.args.batch_size`; the assignment
mutates `self.args`, so every later fold reuses the stored value instead of
deriving its own. The input list holds each fold's `len(train_images)`. -/
def stepsUsedPerFold (argsSteps : Option Nat) (batch : Nat) : List Nat → List Nat
  | [] => []
  | t :: rest =>
      (argsSteps.getD (t / batch)) ::
        stepsUsedPerFold (some (argsSteps.getD (t / batch))) batch rest

/-- Outcome of `RunTime.train`: the emitted event trace and, when an
uncaught Python exception aborts the run, its message. -/
structure RunResult where
  events : List Event
  error : Option String
  deriving DecidableEq, Repr

/-- The fold loop of `RunTime.train` (run.py lines 175-368), one entry of
`folds` per selected fold as its `(len(train_images), len(val_images))`
pair. Per fold: resolve `steps_per_epoch` (lines 203-206, mutating
`self.args`), run the training loop (lines 282-320), then (lines 321-324)
read `optimizer.learning_rate` only under `if self.args.optimizer == 'adam'`
— for any other optimizer the local `learning_rate` is unbound and the call
`self.k_metrics.on_epoch_end(..., learning_rate)` raises `NameError`
(`UnboundLocalError`), aborting the run. Otherwise the fold continues with
`k_metrics.on_epoch_end`, `checkpoint.save_last_model` (line 328),
`predict_and_evaluate_val` (line 356) and `k_metrics.on_kFold_end`
(line 357); after the last fold `k_metrics.on_training_end()` runs
(line 366). -/
def trainGo (optimizer : String) (batch E : Nat) (argsSteps : Option Nat) :
    List (Nat × Nat) → RunResult
  | [] => { events := [Event.trainingEndHook], error := none }
  | (tSize, vSize) :: rest =>
      let S := argsSteps.getD (tSize / batch)
      let loopEv := (runLoop E S vSize).events
      if optimizer = "adam" then
        let r := trainGo optimizer batch E (some S) rest
        { events := loopEv ++ [Event.epochEndHook, Event.saveLastModel,
            Event.predictEvaluate, Event.kFoldEndHook] ++ r.events,
          error := r.error }
      else
        { events := loopEv,
          error := some "NameError: name learning_rate is not defined" }

/-- Every event of one loop iteration is a loop-internal event. -/
theorem bodyEmits_mem (S nVal epoch g : Nat) :
    ∀ e ∈ bodyEmits S nVal epoch g,
      e = Event.trainStep ∨ e = Event.valStep ∨ e = Event.checkpointUpdate ∨
        ∃ k, e = Event.logUpdate k := by
  intro e he
  unfold bodyEmits at he
  by_cases h : (g + 1) % S = 0 ∧ 0 < g
  · simp [h, List.mem_append, List.mem_replicate] at he
    rcases he with h1 | h1 | h1 | h1
    · exact Or.inl h1
    · exact Or.inr (Or.inl h1.2)
    · exact Or.inr (Or.inr (Or.inl h1))
    · exact Or.inr (Or.inr (Or.inr ⟨epoch, h1⟩))
  · simp [h] at he
    exact Or.inl he

theorem foldl_mem_loopEvents (S nVal : Nat) :
    ∀ (l : List Nat) (st : LoopState),
      (∀ e ∈ st.events,
        e = Event.trainStep ∨ e = Event.valStep ∨ e = Event.checkpointUpdate ∨
          ∃ k, e = Event.logUpdate k) →
      ∀ e ∈ (l.foldl (loopBody S nVal) st).events,
        e = Event.trainStep ∨ e = Event.valStep ∨ e = Event.checkpointUpdate ∨
          ∃ k, e = Event.logUpdate k := by
  intro l
  induction l with
  | nil => intro st h; exact h
  | cons g l ih =>
      intro st h
      refine ih (loopBody S nVal st g) ?_
      intro e he
      rw [loopBody_events] at he
      rcases List.mem_append.mp he with h1 | h1
      · exact h e h1
      · exact bodyEmits_mem S nVal st.currentEpoch g e h1

/-- None of the end-of-fold / end-of-run hook events occurs inside the
training loop itself. -/
theorem runLoop_count_hook_zero (E S nVal : Nat) (e : Event)
    (he : e = Event.epochEndHook ∨ e = Event.saveLastModel ∨
      e = Event.predictEvaluate ∨ e = Event.kFoldEndHook ∨
      e = Event.trainingEndHook) :
    (runLoop E S nVal).events.count e = 0 := by
  rw [List.count_eq_zero]
  intro hmem
  have hmem2 := foldl_mem_loopEvents S nVal (List.range (E * S)) ⟨[], 1, 1⟩
    (by intro x hx; simp at hx) e hmem
  rcases he with h | h | h | h | h <;> subst h <;>
    rcases hmem2 with h2 | h2 | h2 | ⟨k, h2⟩ <;> simp at h2

theorem trainGo_cons_adam (batch E : Nat) (argsSteps : Option Nat)
    (t v : Nat) (rest : List (Nat × Nat)) :
    trainGo "adam" batch E argsSteps ((t, v) :: rest) =
      { events := (runLoop E (argsSteps.getD (t / batch)) v).events ++
          [Event.epochEndHook, Event.saveLastModel, Event.predictEvaluate,
            Event.kFoldEndHook] ++
          (trainGo "adam" batch E (some (argsSteps.getD (t / batch))) rest).events,
        error := (trainGo "adam" batch E (some (argsSteps.getD (t / batch))) rest).error } := by
  simp [trainGo]

theorem trainGo_cons_other (optimizer : String) (hopt : optimizer ≠ "adam")
    (batch E : Nat) (argsSteps : Option Nat) (t v : Nat) (rest : List (Nat × Nat)) :
    trainGo optimizer batch E argsSteps ((t, v) :: rest) =
      { events := (runLoop E (argsSteps.getD (t / batch)) v).events,
        error := some "NameError: name learning_rate is not defined" } := by
  simp [trainGo, hopt]

/-- C5 counterexample: a single fold configured with `epochs = 2,
steps_per_epoch = 2` (adam optimizer) hits 2 epoch boundaries (2
`checkpoint.update` calls) but `k_metrics.on_epoch_end` fires only once —
run.py line 324 sits after the training loop, not at the epoch boundary. -/
theorem c5_counterexample :
    (trainGo "adam" 1 2 (some 2) [(4, 1)]).events.count Event.checkpointUpdate = 2 ∧
    (trainGo "adam" 1 2 (some 2) [(4, 1)]).events.count Event.epochEndHook = 1 ∧
    (1 : Nat) ≠ 2 := by decide

/-- C5 (amended): with the adam optimizer, `on_epoch_end` fires exactly
once per fold (after that fold's training loop completes — not once per
epoch boundary), `on_kFold_end` fires exactly once per fold after the
fold's test-set evaluation, and `on_training_end` fires exactly once, as
the final event of the run. -/
theorem c5_hook_lifecycle (batch E : Nat) (argsSteps : Option Nat)
    (folds : List (Nat × Nat)) :
    (trainGo "adam" batch E argsSteps folds).events.count Event.epochEndHook =
      folds.length ∧
    (trainGo "adam" batch E argsSteps folds).events.count Event.kFoldEndHook =
      folds.length ∧
    (trainGo "adam" batch E argsSteps folds).events.count Event.predictEvaluate =
      folds.length ∧
    (trainGo "adam" batch E argsSteps folds).events.count Event.trainingEndHook = 1 ∧
    (trainGo "adam" batch E argsSteps folds).events.getLast? =
      some Event.trainingEndHook ∧
    (trainGo "adam" batch E argsSteps folds).error = none := by
  induction folds generalizing argsSteps with
  | nil => exact ⟨rfl, rfl, rfl, rfl, rfl, rfl⟩
  | cons p rest ih =>
      obtain ⟨t, v⟩ := p
      obtain ⟨ih1, ih2, ih3, ih4, ih5, ih6⟩ := ih (some (argsSteps.getD (t / batch)))
      rw [trainGo_cons_adam]
      have hne : (trainGo "adam" batch E (some (argsSteps.getD (t / batch))) rest).events ≠ [] := by
        intro h0
        rw [h0] at ih5
        simp at ih5
      refine ⟨?_, ?_, ?_, ?_, ?_, ih6⟩
      · have hblock : List.count Event.epochEndHook
            [Event.epochEndHook, Event.saveLastModel, Event.predictEvaluate,
              Event.kFoldEndHook] = 1 := by decide
        rw [List.count_append, List.count_append,
          runLoop_count_hook_zero _ _ _ _ (Or.inl rfl), hblock, ih1]
        simp only [List.length_cons]
        omega
      · have hblock : List.count Event.kFoldEndHook
            [Event.epochEndHook, Event.saveLastModel, Event.predictEvaluate,
              Event.kFoldEndHook] = 1 := by decide
        rw [List.count_append, List.count_append,
          runLoop_count_hook_zero _ _ _ _ (Or.inr (Or.inr (Or.inr (Or.inl rfl)))), hblock, ih2]
        simp only [List.length_cons]
        omega
      · have hblock : List.count Event.predictEvaluate
            [Event.epochEndHook, Event.saveLastModel, Event.predictEvaluate,
              Event.kFoldEndHook] = 1 := by decide
        rw [List.count_append, List.count_append,
          runLoop_count_hook_zero _ _ _ _ (Or.inr (Or.inr (Or.inl rfl))), hblock, ih3]
        simp only [List.length_cons]
        omega
      · have hblock : List.count Event.trainingEndHook
            [Event.epochEndHook, Event.saveLastModel, Event.predictEvaluate,
              Event.kFoldEndHook] = 0 := by decide
        rw [List.count_append, List.count_append,
          runLoop_count_hook_zero _ _ _ _ (Or.inr (Or.inr (Or.inr (Or.inr rfl)))), hblock, ih4]
      · rw [List.getLast?_append_of_ne_nil _ hne]
        exact ih5

/-- C6 counterexample: two folds whose training splits hold 4 and 5 images,
batch size 1, `args.steps_per_epoch = None`. Fold 0 derives
`steps_per_epoch = 4` and stores it into `self.args`, so fold 1 also trains
with 4 steps per epoch instead of its own `5 // 1 = 5` — a value computed
during fold 0 influences fold 1's training. -/
theorem c6_counterexample :
    stepsUsedPerFold none 1 [4, 5] = [4, 4] ∧
    stepsUsedPerFold none 1 [4, 5] ≠ [4 / 1, 5 / 1] := by decide

theorem stepsUsedPerFold_some (batch v : Nat) :
    ∀ sizes : List Nat, stepsUsedPerFold (some v) batch sizes =
      sizes.map (fun _ => v) := by
  intro sizes
  induction sizes with
  | nil => rfl
  | cons t rest ih => simp [stepsUsedPerFold, ih]

/-- C6 (amended): model, optimizer and checkpoint state are constructed
fresh inside the fold loop, but `self.args.steps_per_epoch` is mutated by
the first fold (run.py lines 203-206): when unset, every fold trains with
the first fold's derived value `len(train_images_0) // batch_size` instead
of its own; when preset to `v`, every fold uses `v`. -/
theorem c6_steps_per_epoch_carry (batch : Nat) (t : Nat) (rest : List Nat) :
    stepsUsedPerFold none batch (t :: rest) =
      (t / batch) :: rest.map (fun _ => t / batch) ∧
    ∀ v sizes, stepsUsedPerFold (some v) batch sizes = sizes.map (fun _ => v) := by
  constructor
  · simp [stepsUsedPerFold, stepsUsedPerFold_some]
  · intro v sizes
    exact stepsUsedPerFold_some batch v sizes

/-- C9: for any configured optimizer other than `'adam'`, the local
`learning_rate` of `RunTime.train` is never assigned, so after the first
fold's training loop finishes all its `train_step` calls, evaluating the
argument `learning_rate` of `self.k_metrics.on_epoch_end(...)` (run.py
line 324) raises `NameError`; the run aborts before end-of-fold metrics
recording, the last-model save, and test-set evaluation. -/
theorem c9_non_adam_aborts (optimizer : String) (hopt : optimizer ≠ "adam")
    (batch E : Nat) (argsSteps : Option Nat) (t v : Nat) (rest : List (Nat × Nat)) :
    (trainGo optimizer batch E argsSteps ((t, v) :: rest)).error =
      some "NameError: name learning_rate is not defined" ∧
    (trainGo optimizer batch E argsSteps ((t, v) :: rest)).events.count
      Event.trainStep = E * (argsSteps.getD (t / batch)) ∧
    (trainGo optimizer batch E argsSteps ((t, v) :: rest)).events.count
      Event.epochEndHook = 0 ∧
    (trainGo optimizer batch E argsSteps ((t, v) :: rest)).events.count
      Event.saveLastModel = 0 ∧
    (trainGo optimizer batch E argsSteps ((t, v) :: rest)).events.count
      Event.predictEvaluate = 0 ∧
    (trainGo optimizer batch E argsSteps ((t, v) :: rest)).events.count
      Event.kFoldEndHook = 0 := by
  rw [trainGo_cons_other optimizer hopt]
  refine ⟨rfl, ?_, ?_, ?_, ?_, ?_⟩
  · exact (c1_step_budget E (argsSteps.getD (t / batch)) v).1
  · exact runLoop_count_hook_zero _ _ _ _ (Or.inl rfl)
  · exact runLoop_count_hook_zero _ _ _ _ (Or.inr (Or.inl rfl))
  · exact runLoop_count_hook_zero _ _ _ _ (Or.inr (Or.inr (Or.inl rfl)))
  · exact runLoop_count_hook_zero _ _ _ _ (Or.inr (Or.inr (Or.inr (Or.inl rfl))))

/-- Witness for `c9_non_adam_aborts` with optimizer `'sgd'`, one fold of 3
training images, batch size 1, 2 epochs. -/
theorem c9_non_adam_aborts_witness :
    ("sgd" : String) ≠ "adam" ∧
    (trainGo "sgd" 1 2 none [(3, 1)]).error =
      some "NameError: name learning_rate is not defined" ∧
    (trainGo "sgd" 1 2 none [(3, 1)]).events.count Event.trainStep =
      2 * ((none : Option Nat).getD (3 / 1)) := by
  have h := c9_non_adam_aborts "sgd" (by decide) 1 2 none 3 1 []
  exact ⟨by decide, h.1, h.2.1⟩

/-! ### Loss accumulators (run.py lines 230, 249, 303-319; C7) -/

/-- The numeric state of one fold's training loop: the contents of the
`train_loss` and `val_loss` Keras `Mean` accumulators (run.py lines 230 and
249, fresh per fold), the sequence of `current_val_loss` values passed to
`checkpoint.update` (line 314), and the number of completed validation
rounds. -/
structure AccState where
  trainAcc : List ℚ
  valAcc : List ℚ
  updates : List ℚ
  round : Nat

/-- Mean of the values accumulated by a Keras `Mean` metric. -/
def meanQ (l : List ℚ) : ℚ := l.sum / (l.length : ℚ)

/-- One iteration of the training loop, tracking the accumulators
(run.py lines 285-320). `tl g` is the training loss of step `g`; `vl r i`
is the validation loss of item `i` in validation round `r`. At an epoch
boundary the whole validation set is accumulated into `val_loss`,
`current_val_loss = val_loss.result()` is recorded (line 312), and then
`progress_bar.reset()` runs (line 317). `runtime/progress_bar.py` is not in
src/; modelled from the spec: "Reset/zeroed at fold start; accumulators
reset at the top of each validation round" — i.e. the reset zeroes both
running-loss accumulators between validation rounds. -/
def accBody (S nVal : Nat) (tl : Nat → ℚ) (vl : Nat → Nat → ℚ)
    (st : AccState) (g : Nat) : AccState :=
  let st1 : AccState := { st with trainAcc := st.trainAcc ++ [tl g] }
  if (g + 1) % S = 0 ∧ 0 < g then
    let newVal := st1.valAcc ++ (List.range nVal).map (vl st1.round)
    { trainAcc := [], valAcc := [],
      updates := st1.updates ++ [meanQ newVal],
      round := st1.round + 1 }
  else st1

/-- The accumulator trace of one fold's training loop: both accumulators
start zeroed at fold start (fresh `tf.keras.metrics.Mean` objects). -/
def runAccLoop (E S nVal : Nat) (tl : Nat → ℚ) (vl : Nat → Nat → ℚ) : AccState :=
  (List.range (E * S)).foldl (accBody S nVal tl vl) ⟨[], [], [], 0⟩

theorem accLoop_invariant (S nVal : Nat) (tl : Nat → ℚ) (vl : Nat → Nat → ℚ) :
    ∀ (l : List Nat) (st : AccState),
      st.valAcc = [] →
      st.updates = (List.range st.round).map
        (fun r => meanQ ((List.range nVal).map (vl r))) →
      (l.foldl (accBody S nVal tl vl) st).valAcc = [] ∧
      (l.foldl (accBody S nVal tl vl) st).updates =
        (List.range (l.foldl (accBody S nVal tl vl) st).round).map
          (fun r => meanQ ((List.range nVal).map (vl r))) := by
  intro l
  induction l with
  | nil => intro st h1 h2; exact ⟨h1, h2⟩
  | cons g l ih =>
      intro st h1 h2
      rw [List.foldl_cons]
      by_cases hb : (g + 1) % S = 0 ∧ 0 < g
      · refine ih _ ?_ ?_
        · simp [accBody, hb]
        · simp only [accBody, hb, if_pos, and_self, h1]
          simp [h2, List.range_succ]
      · refine ih _ ?_ ?_
        · simp [accBody, hb, h1]
        · simp [accBody, hb, h2]

/-- C7: the `train_loss` and `val_loss` accumulators are zeroed at fold
start and reset between validation rounds, so each `current_val_loss`
passed to `checkpoint.update` is the mean validation loss of its own round
only: the k-th update equals the mean of round k's per-item losses, not a
mean over all validation steps since the fold started. -/
theorem c7_val_loss_per_round (E S nVal : Nat) (tl : Nat → ℚ) (vl : Nat → Nat → ℚ) :
    (runAccLoop E S nVal tl vl).updates =
      (List.range (runAccLoop E S nVal tl vl).round).map
        (fun r => meanQ ((List.range nVal).map (vl r))) := by
  exact (accLoop_invariant S nVal tl vl (List.range (E * S)) ⟨[], [], [], 0⟩
    rfl (by simp)).2

/-! ### Checkpoints (run.py lines 267-274, 314, 326-328; C3, C4) -/

/-- A saved-model store: association list from path to the persisted
snapshot, most recent write first, so a write to an existing path
overwrites it for readers. -/
def lookupStore {M : Type} (store : List (String × M)) (p : String) : Option M :=
  (store.find? (fun e => decide (e.1 = p))).map Prod.snd

theorem lookupStore_cons {M : Type} (p q : String) (m : M)
    (store : List (String × M)) :
    lookupStore ((p, m) :: store) q =
      if p = q then some m else lookupStore store q := by
  unfold lookupStore
  by_cases h : p = q
  · simp [List.find?, h]
  · simp [List.find?, h]

/-- `current_val_loss < best_loss`, where `best_loss` starts at `np.Inf`
(run.py line 268), modelled as `none`. -/
def belowBest (l : ℚ) : Option ℚ → Bool
  | none => true
  | some b => decide (l < b)

/-- State of the `Checkpoints` object constructed at run.py line 274 with
`best_val_loss = np.Inf` (line 268) and the fold-scoped best/last model
paths (lines 269-272, distinct directories). -/
structure CheckState (M : Type) where
  bestLoss : Option ℚ
  store : List (String × M)
  bestPath : String
  lastPath : String

/-- Modelled from the spec: `runtime/checkpoints.py` is not in src/.
§4.4 `update(model, current_val_loss)`: always persists a snapshot at
`last_path`, overwriting any prior content; if `current_val_loss <
best_loss` (strict less-than), persists the same snapshot at `best_path`
and sets `best_loss = current_val_loss`; a tie does not replace the best
checkpoint. Called once per epoch boundary at run.py line 314. -/
def Checkpoints.update {M : Type} (s : CheckState M) (m : M) (l : ℚ) :
    CheckState M :=
  let s1 : CheckState M := { s with store := (s.lastPath, m) :: s.store }
  if belowBest l s1.bestLoss then
    { s1 with store := (s1.bestPath, m) :: s1.store, bestLoss := some l }
  else s1

/-- C3: every `update(model, current_val_loss)` persists the snapshot at
`last_path` (overwriting), and persists it at `best_path` with
`best_loss := current_val_loss` exactly under the strict test
`current_val_loss < best_loss` (true against the initial `np.Inf`);
otherwise `best_loss` and the snapshot at `best_path` are unchanged — in
particular a loss equal to the stored best never triggers a best write. -/
theorem c3_checkpoint_update {M : Type} (s : CheckState M) (m : M) (l : ℚ)
    (hpaths : s.bestPath ≠ s.lastPath) :
    lookupStore (Checkpoints.update s m l).store s.lastPath = some m ∧
    (belowBest l s.bestLoss = true →
      (Checkpoints.update s m l).bestLoss = some l ∧
      lookupStore (Checkpoints.update s m l).store s.bestPath = some m) ∧
    (belowBest l s.bestLoss = false →
      (Checkpoints.update s m l).bestLoss = s.bestLoss ∧
      lookupStore (Checkpoints.update s m l).store s.bestPath =
        lookupStore s.store s.bestPath) ∧
    (s.bestLoss = some l → belowBest l s.bestLoss = false) := by
  refine ⟨?_, ?_, ?_, ?_⟩
  · by_cases hb : belowBest l s.bestLoss = true
    · simp [Checkpoints.update, hb, lookupStore_cons, hpaths]
    · simp only [Bool.not_eq_true] at hb
      simp [Checkpoints.update, hb, lookupStore_cons]
  · intro hb
    simp [Checkpoints.update, hb, lookupStore_cons]
  · intro hb
    simp [Checkpoints.update, hb, lookupStore_cons, Ne.symm hpaths]
  · intro h
    rw [h]
    simp [belowBest]

/-- Witness for `c3_checkpoint_update`: stored best loss 2, incoming loss 1
(a strict improvement), distinct best/last paths, snapshot 7. -/
theorem c3_checkpoint_update_witness :
    ("bestdir/model" : String) ≠ "lastdir/model" ∧
    lookupStore (Checkpoints.update
      (⟨some 2, [], "bestdir/model", "lastdir/model"⟩ : CheckState Nat) 7 1).store
      "lastdir/model" = some 7 ∧
    belowBest 1 (some 2) = true ∧
    (Checkpoints.update
      (⟨some 2, [], "bestdir/model", "lastdir/model"⟩ : CheckState Nat) 7 1).bestLoss =
      some 1 := by
  have h := c3_checkpoint_update
    (⟨some 2, [], "bestdir/model", "lastdir/model"⟩ : CheckState Nat) 7 1 (by decide)
  exact ⟨by decide, h.1, by decide, (h.2.1 (by decide)).1⟩

/-- The best-tracking step of `update`, projected to the pair (best
snapshot, best loss): keep the incumbent unless the new loss is strictly
smaller (and against no incumbent, always take the new pair). -/
def bestStep {M : Type} (acc : Option (M × ℚ)) (x : M × ℚ) : Option (M × ℚ) :=
  match acc with
  | none => some x
  | some b => if x.2 < b.2 then some x else some b

def runBest {M : Type} (acc : Option (M × ℚ)) : List (M × ℚ) → Option (M × ℚ)
  | [] => acc
  | x :: xs => runBest (bestStep acc x) xs

/-- The sequence of `checkpoint.update` calls of one fold, one per epoch
boundary, each passing the current model snapshot and that round's
`current_val_loss` (run.py line 314). -/
def runUpdates {M : Type} (s : CheckState M) : List (M × ℚ) → CheckState M
  | [] => s
  | x :: xs => runUpdates (Checkpoints.update s x.1 x.2) xs

/-- Fresh checkpoint state at fold start (run.py lines 268-274). -/
def initCheck {M : Type} (bp lp : String) : CheckState M :=
  ⟨none, [], bp, lp⟩

/-- Modelled from the spec: `runtime/checkpoints.py` is not in src/.
`save_last_model(model, path)` persists the given model snapshot at the
given path; run.py line 328 calls it with `best_model_path + '/best/'`. -/
def saveLastModel {M : Type} (s : CheckState M) (m : M) (p : String) :
    CheckState M :=
  { s with store := (p, m) :: s.store }

/-- One fold's checkpoint lifetime (run.py lines 268-328): fresh state,
one `update` per epoch boundary, then the end-of-fold
`checkpoint.save_last_model(model, best_model_path + '/best/')`. -/
def endOfFold {M : Type} (bp lp : String) (pairs : List (M × ℚ))
    (finalModel : M) : CheckState M :=
  saveLastModel (runUpdates (initCheck bp lp) pairs) finalModel (bp ++ "/best/")

theorem append_best_ne (s : String) : s ++ "/best/" ≠ s := by
  intro h
  have h2 := congrArg String.length h
  rw [String.length_append] at h2
  have h3 : ("/best/" : String).length = 6 := rfl
  omega

theorem update_of_below {M : Type} (s : CheckState M) (m : M) (l : ℚ)
    (hb : belowBest l s.bestLoss = true) :
    Checkpoints.update s m l =
      { s with store := (s.bestPath, m) :: (s.lastPath, m) :: s.store,
               bestLoss := some l } := by
  simp [Checkpoints.update, hb]

theorem update_of_not_below {M : Type} (s : CheckState M) (m : M) (l : ℚ)
    (hb : belowBest l s.bestLoss = false) :
    Checkpoints.update s m l = { s with store := (s.lastPath, m) :: s.store } := by
  simp [Checkpoints.update, hb]

/-- The earliest-strict-minimum characterisation of `runBest` running from
an incumbent pair `b`. -/
theorem runBest_some_spec {M : Type} :
    ∀ (l : List (M × ℚ)) (b : M × ℚ),
      (runBest (some b) l = some b ∧
        ∀ j, ∀ hj : j < l.length, b.2 ≤ (l.get ⟨j, hj⟩).2) ∨
      (∃ i, ∃ hi : i < l.length,
        runBest (some b) l = some (l.get ⟨i, hi⟩) ∧
        (l.get ⟨i, hi⟩).2 < b.2 ∧
        (∀ j, ∀ hj : j < l.length, (l.get ⟨i, hi⟩).2 ≤ (l.get ⟨j, hj⟩).2) ∧
        (∀ j, ∀ hj : j < l.length, j < i →
          (l.get ⟨i, hi⟩).2 < (l.get ⟨j, hj⟩).2)) := by
  intro l
  induction l with
  | nil =>
      intro b
      left
      refine ⟨rfl, ?_⟩
      intro j hj
      simp at hj
  | cons x xs ih =>
      intro b
      by_cases hx : x.2 < b.2
      · have hrun : runBest (some b) (x :: xs) = runBest (some x) xs := by
          simp [runBest, bestStep, hx]
        rcases ih x with ⟨h1, h2⟩ | ⟨i, hi, h1, h2, h3, h4⟩
        · right
          refine ⟨0, by simp, ?_, hx, ?_, ?_⟩
          · rw [hrun, h1]
            rfl
          · intro j hj
            cases j with
            | zero => exact le_refl _
            | succ j =>
                have hj2 : j < xs.length := by
                  simp only [List.length_cons] at hj
                  omega
                exact h2 j hj2
          · intro j hj hji
            omega
        · right
          have hi2 : i + 1 < (x :: xs).length := by
            simp only [List.length_cons]
            omega
          refine ⟨i + 1, hi2, ?_, lt_trans h2 hx, ?_, ?_⟩
          · rw [hrun, h1]
            rfl
          · intro j hj
            cases j with
            | zero => exact le_of_lt h2
            | succ j =>
                have hj2 : j < xs.length := by
                  simp only [List.length_cons] at hj
                  omega
                exact h3 j hj2
          · intro j hj hji
            cases j with
            | zero => exact h2
            | succ j =>
                have hj2 : j < xs.length := by
                  simp only [List.length_cons] at hj
                  omega
                exact h4 j hj2 (by omega)
      · have hble : b.2 ≤ x.2 := le_of_not_lt hx
        have hrun : runBest (some b) (x :: xs) = runBest (some b) xs := by
          simp [runBest, bestStep, hx]
        rcases ih b with ⟨h1, h2⟩ | ⟨i, hi, h1, h2, h3, h4⟩
        · left
          refine ⟨by rw [hrun, h1], ?_⟩
          intro j hj
          cases j with
          | zero => exact hble
          | succ j =>
              have hj2 : j < xs.length := by
                simp only [List.length_cons] at hj
                omega
              exact h2 j hj2
        · right
          have hi2 : i + 1 < (x :: xs).length := by
            simp only [List.length_cons]
            omega
          refine ⟨i + 1, hi2, ?_, h2, ?_, ?_⟩
          · rw [hrun, h1]
            rfl
          · intro j hj
            cases j with
            | zero => exact le_of_lt (lt_of_lt_of_le h2 hble)
            | succ j =>
                have hj2 : j < xs.length := by
                  simp only [List.length_cons] at hj
                  omega
                exact h3 j hj2
          · intro j hj hji
            cases j with
            | zero => exact lt_of_lt_of_le h2 hble
            | succ j =>
                have hj2 : j < xs.length := by
                  simp only [List.length_cons] at hj
                  omega
                exact h4 j hj2 (by omega)

/-- Starting from `best_loss = np.Inf`, `runBest` over a nonempty sequence
returns the entry achieving the minimum loss, ties broken earliest. -/
theorem runBest_none_spec {M : Type} (x : M × ℚ) (xs : List (M × ℚ)) :
    ∃ i, ∃ hi : i < (x :: xs).length,
      runBest none (x :: xs) = some ((x :: xs).get ⟨i, hi⟩) ∧
      (∀ j, ∀ hj : j < (x :: xs).length,
        ((x :: xs).get ⟨i, hi⟩).2 ≤ ((x :: xs).get ⟨j, hj⟩).2) ∧
      (∀ j, ∀ hj : j < (x :: xs).length, j < i →
        ((x :: xs).get ⟨i, hi⟩).2 < ((x :: xs).get ⟨j, hj⟩).2) := by
  have hrun : runBest none (x :: xs) = runBest (some x) xs := rfl
  rcases runBest_some_spec xs x with ⟨h1, h2⟩ | ⟨i, hi, h1, h2, h3, h4⟩
  · refine ⟨0, by simp, by rw [hrun, h1]; rfl, ?_, ?_⟩
    · intro j hj
      cases j with
      | zero => exact le_refl _
      | succ j =>
          have hj2 : j < xs.length := by
            simp only [List.length_cons] at hj
            omega
          exact h2 j hj2
    · intro j hj hji
      omega
  · have hi2 : i + 1 < (x :: xs).length := by
      simp only [List.length_cons]
      omega
    refine ⟨i + 1, hi2, by rw [hrun, h1]; rfl, ?_, ?_⟩
    · intro j hj
      cases j with
      | zero => exact le_of_lt h2
      | succ j =>
          have hj2 : j < xs.length := by
            simp only [List.length_cons] at hj
            omega
          exact h3 j hj2
    · intro j hj hji
      cases j with
      | zero => exact h2
      | succ j =>
          have hj2 : j < xs.length := by
            simp only [List.length_cons] at hj
            omega
          exact h4 j hj2 (by omega)

/-- Coupling between a checkpoint state and the pure best-tracking fold:
`bestLoss` agrees with the tracked pair's loss, and whenever a best pair is
tracked, reading `bestPath` from the store yields its snapshot. -/
def InvRel {M : Type} (s : CheckState M) (acc : Option (M × ℚ)) : Prop :=
  s.bestLoss = acc.map Prod.snd ∧
  ∀ m q, acc = some (m, q) → lookupStore s.store s.bestPath = some m

theorem update_couples {M : Type} (s : CheckState M) (acc : Option (M × ℚ))
    (x : M × ℚ) (hne : s.bestPath ≠ s.lastPath) (hinv : InvRel s acc) :
    InvRel (Checkpoints.update s x.1 x.2) (bestStep acc x) ∧
    (Checkpoints.update s x.1 x.2).bestPath = s.bestPath ∧
    (Checkpoints.update s x.1 x.2).lastPath = s.lastPath := by
  obtain ⟨xm, xq⟩ := x
  obtain ⟨hloss, hlook⟩ := hinv
  cases acc with
  | none =>
      have hb : belowBest xq s.bestLoss = true := by rw [hloss]; rfl
      rw [update_of_below s xm xq hb]
      refine ⟨⟨rfl, ?_⟩, rfl, rfl⟩
      intro m q hmq
      simp only [bestStep, Option.some.injEq, Prod.mk.injEq] at hmq
      rw [lookupStore_cons, if_pos rfl, hmq.1]
  | some b =>
      obtain ⟨bm, bq⟩ := b
      have hml : s.bestLoss = some bq := by simpa using hloss
      by_cases hlt : xq < bq
      · have hb : belowBest xq s.bestLoss = true := by
          rw [hml]
          simp [belowBest, hlt]
        rw [update_of_below s xm xq hb]
        have hstep : bestStep (some (bm, bq)) (xm, xq) = some (xm, xq) := by
          simp [bestStep, hlt]
        rw [hstep]
        refine ⟨⟨rfl, ?_⟩, rfl, rfl⟩
        intro m q hmq
        simp only [Option.some.injEq, Prod.mk.injEq] at hmq
        rw [lookupStore_cons, if_pos rfl, hmq.1]
      · have hb : belowBest xq s.bestLoss = false := by
          rw [hml]
          simp [belowBest, hlt]
        rw [update_of_not_below s xm xq hb]
        have hstep : bestStep (some (bm, bq)) (xm, xq) = some (bm, bq) := by
          simp [bestStep, hlt]
        rw [hstep]
        refine ⟨⟨by rw [hml]; rfl, ?_⟩, rfl, rfl⟩
        intro m q hmq
        simp only [Option.some.injEq, Prod.mk.injEq] at hmq
        rw [lookupStore_cons, if_neg (Ne.symm hne)]
        rw [← hmq.1]
        exact hlook bm bq rfl

theorem runUpdates_couples {M : Type} :
    ∀ (l : List (M × ℚ)) (s : CheckState M) (acc : Option (M × ℚ)),
      s.bestPath ≠ s.lastPath → InvRel s acc →
      InvRel (runUpdates s l) (runBest acc l) ∧
      (runUpdates s l).bestPath = s.bestPath ∧
      (runUpdates s l).lastPath = s.lastPath := by
  intro l
  induction l with
  | nil =>
      intro s acc hne hinv
      exact ⟨hinv, rfl, rfl⟩
  | cons x xs ih =>
      intro s acc hne hinv
      obtain ⟨hinv2, hbp, hlp⟩ := update_couples s acc x hne hinv
      have hne2 : (Checkpoints.update s x.1 x.2).bestPath ≠
          (Checkpoints.update s x.1 x.2).lastPath := by
        rw [hbp, hlp]
        exact hne
      obtain ⟨h1, h2, h3⟩ := ih (Checkpoints.update s x.1 x.2) (bestStep acc x) hne2 hinv2
      refine ⟨?_, ?_, ?_⟩
      · show InvRel (runUpdates (Checkpoints.update s x.1 x.2) xs)
          (runBest (bestStep acc x) xs)
        exact h1
      · show (runUpdates (Checkpoints.update s x.1 x.2) xs).bestPath = s.bestPath
        rw [h2, hbp]
      · show (runUpdates (Checkpoints.update s x.1 x.2) xs).lastPath = s.lastPath
        rw [h3, hlp]

/-- C4: at the end of a fold with at least one completed epoch, reading
`best_path` (as the end-of-fold test evaluation does at run.py line 356)
yields the model snapshot of the epoch with the lowest validation loss,
ties broken in favor of the earliest such epoch; the end-of-fold
`save_last_model(model, best_model_path + '/best/')` write (line 328) does
not replace it. -/
theorem c4_best_checkpoint {M : Type} (bp lp : String) (hne : bp ≠ lp)
    (x : M × ℚ) (xs : List (M × ℚ)) (finalModel : M) :
    ∃ i, ∃ hi : i < (x :: xs).length,
      lookupStore (endOfFold bp lp (x :: xs) finalModel).store bp =
        some (((x :: xs).get ⟨i, hi⟩).1) ∧
      (∀ j, ∀ hj : j < (x :: xs).length,
        ((x :: xs).get ⟨i, hi⟩).2 ≤ ((x :: xs).get ⟨j, hj⟩).2) ∧
      (∀ j, ∀ hj : j < (x :: xs).length, j < i →
        ((x :: xs).get ⟨i, hi⟩).2 < ((x :: xs).get ⟨j, hj⟩).2) := by
  obtain ⟨i, hi, hrun, hmin, hearliest⟩ := runBest_none_spec x xs
  have hinv0 : InvRel (initCheck bp lp : CheckState M) none := by
    refine ⟨rfl, ?_⟩
    intro m q h
    cases h
  obtain ⟨⟨hloss, hlook⟩, hbp, hlp⟩ :=
    runUpdates_couples (x :: xs) (initCheck bp lp) none hne hinv0
  have hpair : runBest none (x :: xs) =
      some ((((x :: xs).get ⟨i, hi⟩).1, ((x :: xs).get ⟨i, hi⟩).2)) := by
    rw [hrun]
  have hlook2 := hlook _ _ hpair
  rw [hbp] at hlook2
  refine ⟨i, hi, ?_, hmin, hearliest⟩
  show lookupStore ((bp ++ "/best/", finalModel) ::
    (runUpdates (initCheck bp lp) (x :: xs)).store) bp = _
  rw [lookupStore_cons, if_neg (append_best_ne bp)]
  exact hlook2

/-- Witness for `c4_best_checkpoint`: epoch losses `(3, 1, 1)` with model
snapshots `10, 20, 30`; the best checkpoint read back at the fold's best
path is snapshot `20` — the earliest epoch achieving the minimum loss `1`,
unaffected by the final `save_last_model` of snapshot `99`. -/
theorem c4_best_checkpoint_witness :
    ("b" : String) ≠ "l" ∧
    lookupStore (endOfFold "b" "l"
      [((10 : Nat), (3 : ℚ)), (20, 1), (30, 1)] 99).store "b" = some 20 := by
  refine ⟨by decide, ?_⟩
  obtain ⟨i, hi, hlook, hmin, hearly⟩ :=
    c4_best_checkpoint "b" "l" (by decide) ((10 : Nat), (3 : ℚ)) [(20, 1), (30, 1)] 99
  rcases i with _ | _ | _ | i
  · exact absurd (show (3 : ℚ) ≤ 1 from hmin 1 (by decide)) (by decide)
  · exact hlook
  · exact absurd (show (1 : ℚ) < 1 from hearly 1 (by decide) (by decide)) (by decide)
  · exfalso
    have h3 : i + 1 + 1 + 1 < 3 := by simpa using hi
    omega

/-! ### Sliding-window patch origins (val_step, run.py lines 256-262; C2) -/

/-- Modelled from the spec: `inference/sliding_window.py` is not in src/
(run.py line 256 calls `sliding_window_inference` for validation). Number
of patch positions along one axis per §4.2 step 1: one start at 0, plus
one per `step` of the remaining `vol - patch` span, rounded up, so the
final (clamped) origin reaches the far boundary. -/
def numPositions (vol patch step : Nat) : Nat :=
  (vol - patch + step - 1) / step + 1

/-- Modelled from the spec (§4.2 step 1): patch origins along one axis —
start at 0, advance by `step`, and clamp the final origin to exactly
`vol - patch` so the last patch is flush with the far boundary even when
`step` does not evenly divide the volume. -/
def axisOrigins (vol patch step : Nat) : List Nat :=
  (List.range (numPositions vol patch step)).map
    (fun i => min (i * step) (vol - patch))

/-- The ceiling multiple of `step` reaches `d`. -/
theorem ceil_mul_ge (d step : Nat) (hstep : 1 ≤ step) :
    d ≤ ((d + step - 1) / step) * step := by
  rcases Nat.eq_zero_or_pos d with hd | hd
  · subst hd
    exact Nat.zero_le _
  · have h1 : d + step - 1 = (d - 1) + step := by omega
    rw [h1, Nat.add_div_right _ (show 0 < step by omega), Nat.add_mul, one_mul]
    have hdm := Nat.div_add_mod (d - 1) step
    have hml : (d - 1) % step < step := Nat.mod_lt _ (show 0 < step by omega)
    have hc : (d - 1) / step * step = step * ((d - 1) / step) := Nat.mul_comm _ _
    omega

/-- C2: for any axis with `1 ≤ step ≤ patch ≤ vol`, the generated patch
origins start at 0, advance by the step size with the final origin clamped
to exactly `vol - patch`, every origin fits in the volume, and the union
of the patch intervals `[o, o + patch)` covers every voxel `v < vol` —
including when `step` does not evenly divide the volume. -/
theorem c2_sliding_window_coverage (vol patch step : Nat)
    (hstep : 1 ≤ step) (hsp : step ≤ patch) (hpv : patch ≤ vol) :
    (axisOrigins vol patch step).head? = some 0 ∧
    (axisOrigins vol patch step).getLast? = some (vol - patch) ∧
    (∀ o ∈ axisOrigins vol patch step, o ≤ vol - patch) ∧
    (∀ v, v < vol → ∃ o ∈ axisOrigins vol patch step, o ≤ v ∧ v < o + patch) := by
  refine ⟨?_, ?_, ?_, ?_⟩
  · unfold axisOrigins numPositions
    rw [List.range_succ_eq_map]
    simp
  · unfold axisOrigins numPositions
    rw [List.range_succ, List.map_append]
    simp only [List.map_cons, List.map_nil]
    rw [List.getLast?_concat]
    have hk : vol - patch ≤ ((vol - patch + step - 1) / step) * step :=
      ceil_mul_ge (vol - patch) step hstep
    rw [min_eq_right hk]
  · intro o ho
    unfold axisOrigins at ho
    obtain ⟨i, hi, rfl⟩ := List.mem_map.mp ho
    exact min_le_right _ _
  · intro v hv
    by_cases hvp : v < patch
    · refine ⟨min (0 * step) (vol - patch), ?_, ?_, ?_⟩
      · unfold axisOrigins
        exact List.mem_map_of_mem _ (List.mem_range.mpr
          (show 0 < numPositions vol patch step from by
            unfold numPositions
            exact Nat.succ_pos _))
      · simp
      · simp
        omega
    · have hpv2 : patch ≤ v := le_of_not_lt hvp
      have hvol : patch < vol := lt_of_le_of_lt hpv2 hv
      have hb1 : (v - patch) / step * step ≤ v - patch := Nat.div_mul_le_self _ _
      have hb2 : v - patch < (v - patch) / step * step + step := by
        have hdm := Nat.div_add_mod (v - patch) step
        have hml : (v - patch) % step < step := Nat.mod_lt _ (show 0 < step by omega)
        have hc : (v - patch) / step * step = step * ((v - patch) / step) :=
          Nat.mul_comm _ _
        omega
      have hq1 : ((v - patch) / step + 1) * step = (v - patch) / step * step + step := by
        rw [Nat.add_mul, one_mul]
      have hiK : (v - patch) / step + 1 < numPositions vol patch step := by
        unfold numPositions
        have h1 : vol - patch + step - 1 = (vol - patch - 1) + step := by omega
        rw [h1, Nat.add_div_right _ (show 0 < step by omega)]
        have hqle : (v - patch) / step ≤ (vol - patch - 1) / step :=
          Nat.div_le_div_right (by omega)
        omega
      refine ⟨min (((v - patch) / step + 1) * step) (vol - patch), ?_, ?_, ?_⟩
      · unfold axisOrigins
        exact List.mem_map_of_mem _ (List.mem_range.mpr hiK)
      · have h1 : ((v - patch) / step + 1) * step ≤ v := by
          rw [hq1]
          omega
        exact le_trans (min_le_left _ _) h1
      · rcases le_or_lt (((v - patch) / step + 1) * step) (vol - patch) with hc2 | hc2
        · rw [min_eq_left hc2, hq1]
          omega
        · rw [min_eq_right (le_of_lt hc2)]
          omega

/-- Witness for `c2_sliding_window_coverage`: volume 11, patch 4, step 3 —
a case where the step does not evenly divide the volume (origins
`[0, 3, 6, 7]`, the last clamped flush to `11 - 4`). -/
theorem c2_sliding_window_coverage_witness :
    (1 ≤ 3 ∧ 3 ≤ 4 ∧ 4 ≤ 11) ∧
    ((axisOrigins 11 4 3).head? = some 0 ∧
      (axisOrigins 11 4 3).getLast? = some (11 - 4) ∧
      (∀ o ∈ axisOrigins 11 4 3, o ≤ 11 - 4) ∧
      (∀ v, v < 11 → ∃ o ∈ axisOrigins 11 4 3, o ≤ v ∧ v < o + 4)) :=
  ⟨by decide, c2_sliding_window_coverage 11 4 3 (by decide) (by decide) (by decide)⟩

/-! ### Grayscale conversion before train_step (run.py lines 285-299; C8) -/

/-- Shape of a batched image/mask tensor: spatial dimensions plus the
trailing channel dimension. -/
structure Tensor where
  spatial : List Nat
  channels : Nat
  deriving DecidableEq, Repr

/-- `tf.image.rgb_to_grayscale` (external TensorFlow call at run.py lines
286-287): reduces the trailing channel dimension to a single grayscale
channel, preserving all other dimensions. -/
def rgbToGrayscale (t : Tensor) : Tensor :=
  { t with channels := 1 }

/-- The `(image, mask)` batches actually passed to `train_step` during one
fold: the loop body (run.py lines 285-299) converts both tensors of every
pulled batch with `tf.image.rgb_to_grayscale` before the `train_step(image,
mask)` call at line 299. `raw g` is the batch pulled from the data iterator
at global step `g`. -/
def trainBatches (raw : Nat → Tensor × Tensor) (total : Nat) :
    List (Tensor × Tensor) :=
  (List.range total).map
    (fun g => (rgbToGrayscale (raw g).1, rgbToGrayscale (raw g).2))

/-- The model as constructed at run.py lines 221-228: `get_model(...,
n_channels=len(self.data['images']), ...)` declares `n_channels` input
channels from the data manifest. -/
structure NetModel where
  inputChannels : Nat
  deriving DecidableEq, Repr

def getModel (nChannels : Nat) : NetModel :=
  { inputChannels := nChannels }

/-- C8: every `(image, mask)` batch passed to `train_step` has been through
`tf.image.rgb_to_grayscale`, so the model always trains on single-channel
inputs regardless of the manifest channel count `n_channels` — even though
the model itself is constructed with `n_channels` input channels. -/
theorem c8_grayscale_before_train_step (raw : Nat → Tensor × Tensor)
    (total nChannels : Nat) :
    (∀ b ∈ trainBatches raw total, b.1.channels = 1 ∧ b.2.channels = 1) ∧
    (getModel nChannels).inputChannels = nChannels := by
  refine ⟨?_, rfl⟩
  intro b hb
  unfold trainBatches at hb
  obtain ⟨g, hg, rfl⟩ := List.mem_map.mp hb
  exact ⟨rfl, rfl⟩

/-- Witness for `c8_grayscale_before_train_step`: a 3-channel `64³` batch
with a 3-channel data manifest. -/
theorem c8_grayscale_before_train_step_witness :
    ((rgbToGrayscale ⟨[64, 64, 64], 3⟩, rgbToGrayscale ⟨[64, 64, 64], 3⟩) :
      Tensor × Tensor).1.channels = 1 ∧
    (getModel 3).inputChannels = 3 := by
  have h := c8_grayscale_before_train_step
    (fun _ => (⟨[64, 64, 64], 3⟩, ⟨[64, 64, 64], 3⟩)) 1 3
  exact ⟨(h.1 _ (by decide)).1, h.2⟩

/-! ### predict_and_evaluate_val temp-file cleanup (run.py lines 63-110; C10) -/

/-- `os.remove(p)` over a modelled file system (the list of existing
paths): removes the path if present, otherwise raises `FileNotFoundError`. -/
def osRemove (fs : List String) (p : String) : Except String (List String) :=
  if p ∈ fs then Except.ok (fs.erase p) else Except.error "FileNotFoundError"

/-- `RunTime.predict_and_evaluate_val` (run.py lines 63-110) over a modelled
file system, parameterised by the two temp paths built at lines 67-68 and
the per-case prediction directory. The per-case loop (`for step, (image, _)
in enumerate(ds.take(len(df)))`, line 70) runs once per dataframe row:
each iteration writes the case prediction file (line 84) and evaluates it
— `evaluate_prediction` lives in `runtime/utils.py`, which is not in src/;
modelled from the spec/claim: it writes the two temporary prediction and
mask files it is given and yields one result row per case (appended at
line 98). After the loop, `os.remove` is called unconditionally on both
temp paths (lines 105-106). Returns the final file system and appended
result rows, or the uncaught exception. -/
def predictAndEvaluateVal (predTemp maskTemp predDir : String)
    (df : List String) (fs0 : List String) :
    Except String (List String × List String) :=
  let folded := df.foldl
    (fun (acc : List String × List String) c =>
      (predTemp :: maskTemp :: (predDir ++ c ++ ".nii.gz") :: acc.1,
        acc.2 ++ [c]))
    (fs0, [])
  match osRemove folded.1 predTemp with
  | Except.error e => Except.error e
  | Except.ok fs1 =>
      match osRemove fs1 maskTemp with
      | Except.error e => Except.error e
      | Except.ok fs2 => Except.ok (fs2, folded.2)

/-- C10: with an empty dataframe the per-case loop runs zero times, the
temporary prediction/mask files are never created, and (provided the temp
paths do not already exist) the unconditional `os.remove` at run.py line
105 raises `FileNotFoundError` — the function never returns cleanly with
zero appended results. -/
theorem c10_empty_df_file_not_found (predTemp maskTemp predDir : String)
    (fs0 : List String) (hnotin : predTemp ∉ fs0) :
    predictAndEvaluateVal predTemp maskTemp predDir [] fs0 =
      Except.error "FileNotFoundError" := by
  unfold predictAndEvaluateVal osRemove
  simp [hnotin]

/-- Witness for `c10_empty_df_file_not_found`: empty dataframe, empty
file system. -/
theorem c10_empty_df_file_not_found_witness :
    ("results/predictions/train/raw/pred_temp.nii.gz" : String) ∉ ([] : List String) ∧
    predictAndEvaluateVal "results/predictions/train/raw/pred_temp.nii.gz"
      "results/predictions/train/raw/mask_temp.nii.gz"
      "results/predictions/train/raw/" [] [] =
      Except.error "FileNotFoundError" :=
  ⟨by decide, c10_empty_df_file_not_found _ _ _ _ (by decide)⟩

end MISTrg
